import Mathlib

/-!
The file `pkg/types/unversioned/types.go` of container-structure-test.

A shallow embedding of the shared data model of the container image testing
tool: the output format selector `OutputValue`, the run options record
`ContainerRunOptions`, the mutable accumulator `TestResult` with its
human-readable rendering, and the report `SummaryObject` with the XML and
JSON renderings that its struct tags select.

Conventions of the embedding.

* A Go `string` is a Lean `String`; `len` of a string is its UTF-8 byte size.
* A Go `[]string` is a `StrSlice`: `none` is the nil slice, `some xs` a non-nil
  slice holding `xs`.
* A method with a pointer receiver that mutates it returns the new value of
  the receiver.
* A Go `error` is an `Option String`: `none` is `nil`, `some m` an error whose
  message is `m`.
* A run-time panic is the `Except.error` branch of the result.
* A pointer receiver is taken to be non-nil.
* The standard library functions the file calls (`fmt.Sprintf`,
  `strings.Join`, `time.Duration.String`) are embedded from the Go sources,
  and so are the parts of `encoding/xml` and `encoding/json` that read the
  struct tags declared in the file.
-/

set_option autoImplicit false

namespace Unversioned

/-! ## Go values -/

/-- Length in bytes of a Go string (the builtin `len`). -/
def len (s : String) : Nat := s.utf8ByteSize

/-- Slice of strings: `none` is the nil slice, `some xs` is a non-nil slice
whose elements are `xs`. -/
abbrev StrSlice := Option (List String)

/-- Elements of a slice, in order; the nil slice has none. -/
def StrSlice.elems : StrSlice → List String
  | none => []
  | some xs => xs

/-- The builtin `len` on a slice; `len(nil)` is `0`. -/
def StrSlice.len (s : StrSlice) : Nat := s.elems.length

/-- The builtin `append(s, x)` with one element: the result is never nil. -/
def StrSlice.append (s : StrSlice) (x : String) : StrSlice :=
  some (s.elems ++ [x])

/-- Whether the slice is the nil slice (`s == nil`). -/
def StrSlice.isNil : StrSlice → Bool
  | none => true
  | some _ => false

/-! ## `fmt.Sprintf`

The fragment of `fmt` the file needs: operands are integers and strings, and a
verb is the character right after `%`. Flags, width, precision and argument
indexes are not part of the fragment, and of the verbs only `%d`, `%s`, `%v`
and `%%` are given their meaning. -/

/-- Operand of a formatting call (`interface{}` restricted to `int` and
`string`). -/
inductive Arg where
  | int (n : Int)
  | str (s : String)
  deriving DecidableEq, Repr

/-- Go type name of an operand, as printed in the diagnostics of `fmt`. -/
def Arg.typeName : Arg → String
  | .int _ => "int"
  | .str _ => "string"

/-- Operand printed with the default verb `%v`. -/
def Arg.value : Arg → String
  | .int n => toString n
  | .str s => s

/-- Prints one operand under a verb (`printArg`): `%d` and `%v` print an
integer in decimal, `%s` and `%v` print a string as is, and any other pairing
is reported in the `%!verb(type=value)` form of `badVerb`. -/
def printArg (a : Arg) (verb : Char) : List Char :=
  match a with
  | .int n =>
    if verb = 'd' ∨ verb = 'v' then (toString n).data
    else "%!".data ++ [verb] ++ "(".data ++ a.typeName.data ++ "=".data ++ a.value.data ++ ")".data
  | .str s =>
    if verb = 's' ∨ verb = 'v' then s.data
    else "%!".data ++ [verb] ++ "(".data ++ a.typeName.data ++ "=".data ++ a.value.data ++ ")".data

/-- Operands left over, joined with a comma and a space, each as
`type=value`. -/
def extraList : List Arg → List Char
  | [] => []
  | [a] => a.typeName.data ++ "=".data ++ a.value.data
  | a :: b :: rest =>
    a.typeName.data ++ "=".data ++ a.value.data ++ ", ".data ++ extraList (b :: rest)

/-- The check after the formatting loop: operands that no verb consumed are
reported as `%!(EXTRA ...)`. -/
def extraArgs : List Arg → List Char
  | [] => []
  | a :: rest => "%!(EXTRA ".data ++ extraList (a :: rest) ++ ")".data

/-- The formatting loop of `doPrintf`. The flag `afterPercent` is set when the
previous character was a `%` that opens a verb: a format that ends there
yields `%!(NOVERB)`, `%%` yields a percent sign, a verb with no operand left
yields `%!verb(MISSING)`, and any other verb consumes the next operand. -/
def doPrintf (afterPercent : Bool) : List Char → List Arg → List Char
  | [], args => (if afterPercent then "%!(NOVERB)".data else []) ++ extraArgs args
  | c :: rest, args =>
    if afterPercent then
      if c = '%' then '%' :: doPrintf false rest args
      else
        match args with
        | [] => "%!".data ++ [c] ++ "(MISSING)".data ++ doPrintf false rest []
        | a :: more => printArg a c ++ doPrintf false rest more
    else if c = '%' then doPrintf true rest args
    else c :: doPrintf false rest args

/-- Go `fmt.Sprintf(format, args...)` on the formats in which every `%` is
followed by `d`, `s`, `v` or `%`, or ends the format, with integer and string
operands. On other formats (flags, width, precision, other verbs) the value
of this definition is not the text that Go prints, and nothing is stated
about it. -/
def Sprintf (format : String) (args : List Arg) : String :=
  String.mk (doPrintf false format.data args)

/-! ## `OutputValue` -/

/-- Ordinal-backed output format (`type OutputValue int`). -/
structure OutputValue where
  ord : Int
  deriving DecidableEq, Repr

/-- First constant of the `iota` block. -/
def Text : OutputValue := ⟨0⟩
/-- Second constant of the `iota` block. -/
def Json : OutputValue := ⟨1⟩
/-- Third constant of the `iota` block. -/
def Junit : OutputValue := ⟨2⟩

deriving instance DecidableEq for Except

/-- Run-time faults raised by the embedded code. -/
inductive Panic where
  | indexOutOfRange (index : Int) (length : Nat)
  deriving DecidableEq, Repr

/-- Indexing of a fixed array by an `int`: a negative index or one that is at
least the length panics. -/
def arrayIndex (xs : List String) (i : Int) : Except Panic String :=
  if i < 0 then .error (.indexOutOfRange i xs.length)
  else
    match xs.get? i.toNat with
    | some x => .ok x
    | none => .error (.indexOutOfRange i xs.length)

/-- Method `func (o OutputValue) Type() string`. -/
def OutputValue.Type (_o : OutputValue) : String := "string"

/-- Method `func (o *OutputValue) Set(value string) error`: the pair of the
value of `*o` after the call and the returned error. -/
def OutputValue.Set (o : OutputValue) (value : String) : OutputValue × Option String :=
  if value = "text" then (Text, none)
  else if value = "json" then (Json, none)
  else if value = "junit" then (Junit, none)
  else
    (o, some (Sprintf "unsupported format %s: please select from `text`, `json`, or `junit`"
      [.str value]))

/-- Method `func (o OutputValue) String() string`: indexes the array literal
of the three names by the ordinal. -/
def OutputValue.String (o : OutputValue) : Except Panic String :=
  arrayIndex ["text", "json", "junit"] o.ord

/-! ## `ContainerRunOptions` -/

/-- Execution overrides for the test container. -/
structure ContainerRunOptions where
  User : String
  Privileged : Bool
  TTY : Bool
  EnvVars : StrSlice
  EnvFile : String
  Capabilities : StrSlice
  BindMounts : StrSlice
  deriving DecidableEq, Repr

/-- Method `func (opts *ContainerRunOptions) IsSet() bool`. -/
def ContainerRunOptions.IsSet (opts : ContainerRunOptions) : Bool :=
  len opts.User != 0 ||
    opts.Privileged ||
    opts.TTY ||
    decide (len opts.EnvFile > 0) ||
    (!opts.EnvVars.isNil && decide (opts.EnvVars.len > 0)) ||
    (!opts.Capabilities.isNil && decide (opts.Capabilities.len > 0)) ||
    (!opts.BindMounts.isNil && decide (opts.BindMounts.len > 0))

/-! ## `strings.Join` -/

/-- Go `strings.Join(elems, sep)`: the empty string for no element, the
element itself for one, and otherwise the first element followed, for each
later element, by the separator and that element. -/
def Join (elems : StrSlice) (sep : String) : String :=
  match elems.elems with
  | [] => ""
  | [x] => x
  | x :: rest => rest.foldl (fun b s => b ++ sep ++ s) x

/-! ## `time.Duration` -/

/-- Go `time.Duration`: a signed count of nanoseconds (`int64`; the model
takes any integer and agrees with Go on the 64-bit range). -/
structure Duration where
  ns : Int
  deriving DecidableEq, Repr

/-- Constant `time.Microsecond` in nanoseconds. -/
def Microsecond : Nat := 1000
/-- Constant `time.Millisecond` in nanoseconds. -/
def Millisecond : Nat := 1000 * Microsecond
/-- Constant `time.Second` in nanoseconds. -/
def Second : Nat := 1000 * Millisecond

/-- The byte `byte(digit) + '0'`. -/
def digitByte (digit : Nat) : Char := Char.ofNat (digit + 48)

/-- Loop of `fmtFrac`: `i` iterations remain; each drops the last decimal
digit of `v` and writes it in front of `buf` once a non-zero digit was seen. -/
def fmtFracLoop : Nat → List Char → Nat → Bool → List Char × Nat × Bool
  | 0, buf, v, print => (buf, v, print)
  | i + 1, buf, v, print =>
    let digit := v % 10
    let print := print || digit != 0
    fmtFracLoop i (if print then digitByte digit :: buf else buf) (v / 10) print

/-- Go `fmtFrac(buf, v, prec)`: writes the fraction of `v / 10^prec` in front
of `buf` without trailing zeros, and without the decimal point when the
fraction is zero; returns the buffer and `v / 10^prec`. -/
def fmtFrac (buf : List Char) (v : Nat) (prec : Nat) : List Char × Nat :=
  let r := fmtFracLoop prec buf v false
  (if r.2.2 then '.' :: r.1 else r.1, r.2.1)

/-- Loop of `fmtInt` for a positive value, with the value as fuel. -/
def fmtIntLoop : Nat → List Char → Nat → List Char
  | 0, buf, _ => buf
  | fuel + 1, buf, v =>
    if v > 0 then fmtIntLoop fuel (digitByte (v % 10) :: buf) (v / 10) else buf

/-- Go `fmtInt(buf, v)`: writes `v` in decimal in front of `buf`. -/
def fmtInt (buf : List Char) (v : Nat) : List Char :=
  if v = 0 then '0' :: buf else fmtIntLoop v buf v

/-- Method `func (d Duration) format(buf *[32]byte) int`: the bytes written at
the tail of the buffer. The magnitude `u` is `uint64(d)`, negated when `d` is
negative. -/
def Duration.format (d : Duration) : List Char :=
  let u : Nat := d.ns.natAbs
  let neg : Bool := decide (d.ns < 0)
  if u < Second then
    if u = 0 then ['0', 's']
    else
      let r : List Char × Nat :=
        if u < Microsecond then fmtFrac ['n', 's'] u 0
        else if u < Millisecond then fmtFrac ['µ', 's'] u 3
        else fmtFrac ['m', 's'] u 6
      let w := fmtInt r.1 r.2
      if neg then '-' :: w else w
  else
    let r := fmtFrac ['s'] u 9
    let w := fmtInt r.1 (r.2 % 60)
    let u := r.2 / 60
    let w :=
      if u > 0 then
        let w := fmtInt ('m' :: w) (u % 60)
        let u := u / 60
        if u > 0 then fmtInt ('h' :: w) u else w
      else w
    if neg then '-' :: w else w

/-- Method `func (d Duration) String() string`. -/
def Duration.String (d : Duration) : String := String.mk d.format

/-! ## `TestResult` -/

/-- Outcome record of one test. -/
structure TestResult where
  Name : String
  Pass : Bool
  Stdout : String
  Stderr : String
  Errors : StrSlice
  Duration : Duration
  deriving DecidableEq, Repr

/-- Method `func (t *TestResult) Error(s string)`. -/
def TestResult.Error (t : TestResult) (s : String) : TestResult :=
  { t with Errors := t.Errors.append s }

/-- Method `func (t *TestResult) Errorf(s string, args ...interface{})`. -/
def TestResult.Errorf (t : TestResult) (s : String) (args : List Arg) : TestResult :=
  { t with Errors := t.Errors.append (Sprintf s args) }

/-- Method `func (t *TestResult) Fail()`. -/
def TestResult.Fail (t : TestResult) : TestResult :=
  { t with Pass := false }

/-- Method `func (t *TestResult) IsPass() bool`. -/
def TestResult.IsPass (t : TestResult) : Bool := t.Pass

/-- Method `func (t *TestResult) String() string`: the text accumulated in
`strRepr`, statement by statement. -/
def TestResult.String (t : TestResult) : String :=
  let strRepr := Sprintf "\nTest Name:%s" [.str t.Name]
  let testStatus := if t.IsPass then "Pass" else "Fail"
  let strRepr := strRepr ++ Sprintf "\nTest Status:%s" [.str testStatus]
  let strRepr :=
    if t.Stdout ≠ "" then strRepr ++ Sprintf "\nStdout:%s" [.str t.Stdout] else strRepr
  let strRepr :=
    if t.Stderr ≠ "" then strRepr ++ Sprintf "\nStderr:%s" [.str t.Stderr] else strRepr
  let strRepr := strRepr ++ Sprintf "\nErrors:%s\n" [.str (Join t.Errors ",")]
  let strRepr := strRepr ++ Sprintf "\nDuration:%s\n" [.str t.Duration.String]
  strRepr

/-- One call of a mutator of `TestResult`. -/
inductive Mutator where
  | Error (s : String)
  | Errorf (s : String) (args : List Arg)
  | Fail
  deriving DecidableEq, Repr

/-- Effect of one mutator call. -/
def TestResult.call (t : TestResult) : Mutator → TestResult
  | .Error s => t.Error s
  | .Errorf s args => t.Errorf s args
  | .Fail => t.Fail

/-- Effect of a sequence of mutator calls, first call first. -/
def TestResult.calls (t : TestResult) (ms : List Mutator) : TestResult :=
  ms.foldl TestResult.call t

/-! ## Reading a rendering -/

/-- Splits a text at every newline: the pieces between consecutive newlines,
in order, with the piece before the first and after the last newline. -/
def splitLines : List Char → List (List Char)
  | [] => [[]]
  | c :: cs =>
    if c = '\n' then [] :: splitLines cs
    else
      match splitLines cs with
      | [] => [[c]]
      | l :: ls => (c :: l) :: ls

/-- The lines of a text. -/
def lines (s : String) : List String := (splitLines s.data).map String.mk

/-- Whether somewhere in `ls` the line `a` is immediately followed by the
line `b`. -/
def followedBy (a b : String) : List String → Bool
  | [] => false
  | [_] => false
  | x :: y :: rest => (x == a && y == b) || followedBy a b (y :: rest)

/-- The entries in list order separated by single commas, with no leading or
trailing separator. -/
def commaSeparated : List String → String
  | [] => ""
  | [x] => x
  | x :: y :: rest => x ++ "," ++ commaSeparated (y :: rest)

/-- Text of the human rendering that comes before the error segment: the name
segment, the status segment and the stdout and stderr segments that are
present. -/
def headSegments (t : TestResult) : String :=
  "\nTest Name:" ++ t.Name ++
    ("\nTest Status:" ++ (if t.IsPass = true then "Pass" else "Fail")) ++
    (if t.Stdout = "" then "" else "\nStdout:" ++ t.Stdout) ++
    (if t.Stderr = "" then "" else "\nStderr:" ++ t.Stderr)

/-- Effect on the receiver of a sequence of `Set` calls, first call first;
the returned errors are dropped. -/
def setAll (o : OutputValue) (values : List String) : OutputValue :=
  values.foldl (fun cur v => (cur.Set v).1) o

/-! ## Struct declarations and their tags

The struct declarations carry the `json` and `xml` keys of their field tags;
`encoding/xml` and `encoding/json` read them by reflection. A struct is
presented to the encoders as the list of its fields in declaration order.
Pointers in `[]*TestResult` are taken to be non-nil. -/

/-- Go `xml.Name`. -/
structure XmlName where
  Space : String
  Local : String
  deriving DecidableEq, Repr

/-- Aggregate report of a run. -/
structure SummaryObject where
  XMLName : XmlName
  Pass : Int
  Fail : Int
  Total : Int
  Duration : Duration
  Results : Option (List TestResult)
  deriving DecidableEq, Repr

/-- Values of the kinds that the fields of `TestResult` and `xml.Name` have:
integers (`int`, `time.Duration`), booleans, strings and slices of strings. -/
inductive SimpleValue where
  | int (n : Int)
  | bool (b : Bool)
  | str (s : String)
  | strs (xs : StrSlice)
  deriving DecidableEq, Repr

/-- Values of the kinds that the fields of `SummaryObject` have. -/
inductive FieldValue where
  | simple (v : SimpleValue)
  | name (n : XmlName)
  | results (rs : Option (List TestResult))
  deriving DecidableEq, Repr

/-- A struct field as reflection presents it: its Go name, the values of the
`json` and `xml` keys of its tag (empty when the key is absent) and its
value. -/
structure Field (α : Type) where
  name : String
  jsonTag : String
  xmlTag : String
  value : α
  deriving DecidableEq, Repr

/-- Fields of `xml.Name`, which are declared without tags. -/
def XmlName.fields (n : XmlName) : List (Field SimpleValue) :=
  [ ⟨"Space", "", "", .str n.Space⟩,
    ⟨"Local", "", "", .str n.Local⟩ ]

/-- Fields of `TestResult` with their tags. -/
def TestResult.fields (t : TestResult) : List (Field SimpleValue) :=
  [ ⟨"Name", "", "name,attr", .str t.Name⟩,
    ⟨"Pass", "", "-", .bool t.Pass⟩,
    ⟨"Stdout", ",omitempty", "-", .str t.Stdout⟩,
    ⟨"Stderr", ",omitempty", "-", .str t.Stderr⟩,
    ⟨"Errors", ",omitempty", "failure", .strs t.Errors⟩,
    ⟨"Duration", "", "time,attr", .int t.Duration.ns⟩ ]

/-- Fields of `SummaryObject` with their tags. -/
def SummaryObject.fields (s : SummaryObject) : List (Field FieldValue) :=
  [ ⟨"XMLName", "-", "testsuites", .name s.XMLName⟩,
    ⟨"Pass", "", "-", .simple (.int s.Pass)⟩,
    ⟨"Fail", "", "failures,attr", .simple (.int s.Fail)⟩,
    ⟨"Total", "", "tests,attr", .simple (.int s.Total)⟩,
    ⟨"Duration", "", "time,attr", .simple (.int s.Duration.ns)⟩,
    ⟨"Results", ",omitempty", "testsuite>testcase", .results s.Results⟩ ]

/-- Pieces of a text between the occurrences of a separator character. -/
def splitAtChar (sep : Char) : List Char → List (List Char)
  | [] => [[]]
  | c :: cs =>
    if c = sep then [] :: splitAtChar sep cs
    else
      match splitAtChar sep cs with
      | [] => [[c]]
      | l :: ls => (c :: l) :: ls

/-- Go `strings.Split(s, sep)` for a separator of one character. -/
def Split (s : String) (sep : Char) : List String :=
  (splitAtChar sep s.data).map String.mk

/-- Go `isEmptyValue` of both encoders on simple kinds: false, 0, the empty
string and a slice of length 0. -/
def SimpleValue.isEmpty : SimpleValue → Bool
  | .int n => n == 0
  | .bool b => !b
  | .str s => len s == 0
  | .strs xs => xs.len == 0

/-- Go `isEmptyValue` on the kinds of `SummaryObject`: a struct is never
empty, a slice is empty when its length is 0. -/
def FieldValue.isEmpty : FieldValue → Bool
  | .simple v => v.isEmpty
  | .name _ => false
  | .results none => true
  | .results (some ts) => ts.length == 0

/-! ## `encoding/xml`

The fragment of the marshaller that the declarations exercise: element and
attribute fields, `omitempty`, `a>b` parent paths and the `XMLName` field.
Namespaces and the modes `chardata`, `cdata`, `innerxml`, `comment` and `any`
are outside the fragment. The output is the sequence of tokens written. -/

/-- Token of the output: start tag with its attributes, text, end tag. -/
inductive XmlToken where
  | startElement (name : String) (attrs : List (String × String))
  | charData (text : String)
  | endElement (name : String)
  deriving DecidableEq, Repr

/-- What the marshaller keeps of a field tag (`fieldInfo`). -/
structure XmlFieldInfo where
  name : String
  parents : List String
  attr : Bool
  omitEmpty : Bool
  deriving DecidableEq, Repr

/-- Go `structFieldInfo`: the tag is split at commas into the name part and
the flags; an `XMLName` field keeps the name part as is; an empty name part
defaults to the field name; otherwise the name part is split at `>` into the
parents and the element name. -/
def structFieldInfo (fieldName tag : String) : Except String XmlFieldInfo :=
  let tokens := Split tag ','
  let namePart := tokens.headD ""
  let flags := tokens.tail
  let attr := flags.contains "attr"
  let omitEmpty := flags.contains "omitempty"
  if flags.any (fun f => f == "cdata" || f == "chardata" || f == "innerxml" ||
      f == "comment" || f == "any") then
    .error "xml: flag outside the modelled fragment"
  else if fieldName = "XMLName" then .ok ⟨namePart, [], attr, omitEmpty⟩
  else if namePart = "" then .ok ⟨fieldName, [], attr, omitEmpty⟩
  else
    let path := Split namePart '>'
    let path := if path.headD "" = "" then fieldName :: path.tail else path
    if path.getLastD "" = "" then .error "xml: trailing '>' in field"
    else if path.length > 1 ∧ attr = true then .error "xml: a>b chain not valid with attr flag"
    else .ok ⟨path.getLastD "", path.dropLast, attr, omitEmpty⟩

/-- What `getTypeInfo` collects for a struct type: the info of the `XMLName`
field with that field's value, and the other fields that are not tagged
`-`, each with its info and value. -/
structure TypeInfo (α : Type) where
  xmlname : Option (XmlFieldInfo × α)
  fields : List (XmlFieldInfo × α)

/-- Go `getTypeInfo`: walks the fields in order, skips those tagged `-`,
records an `XMLName` field apart and fails when a tag is malformed. -/
def getTypeInfo {α : Type} : List (Field α) → Except String (TypeInfo α)
  | [] => .ok ⟨none, []⟩
  | f :: rest =>
    match getTypeInfo rest with
    | .error e => .error e
    | .ok tinfo =>
      if f.xmlTag = "-" then .ok tinfo
      else
        match structFieldInfo f.name f.xmlTag with
        | .error e => .error e
        | .ok finfo =>
          if f.name = "XMLName" then .ok ⟨some (finfo, f.value), tinfo.fields⟩
          else .ok ⟨tinfo.xmlname, (finfo, f.value) :: tinfo.fields⟩

/-- Go `marshalSimple` on integers, booleans and strings. -/
def marshalSimple : SimpleValue → Option String
  | .int n => some (toString n)
  | .bool b => some (if b then "true" else "false")
  | .str s => some s
  | .strs _ => none

/-- How a kind of values is marshalled: its emptiness test, its reading as an
`xml.Name`, and its marshalling as an attribute and as an element. -/
structure XmlKind (α : Type) where
  isEmpty : α → Bool
  asName : α → Option XmlName
  attr : String → α → Except String (List (String × String))
  element : XmlFieldInfo → α → Except String (List XmlToken)

/-- Length of the longest common start of two lists of names. -/
def commonLen : List String → List String → Nat
  | a :: as, b :: bs => if a = b then commonLen as bs + 1 else 0
  | _, _ => 0

/-- Go `parentStack.trim`: closes the open parents beyond the common start
with the wanted parents; returns the tokens and the remaining stack. -/
def trim (stack parents : List String) : List XmlToken × List String :=
  let split := commonLen parents stack
  (((stack.drop split).reverse).map XmlToken.endElement, stack.take split)

/-- Go `parentStack.push`: opens the given parents. -/
def push (stack parents : List String) : List XmlToken × List String :=
  (parents.map (fun p => XmlToken.startElement p []), stack ++ parents)

/-- Attributes of the start tag: every field with the `attr` flag, in order,
left out when it is `omitempty` and empty. -/
def marshalAttrs {α : Type} (k : XmlKind α) :
    List (XmlFieldInfo × α) → Except String (List (String × String))
  | [] => .ok []
  | (finfo, v) :: rest =>
    match marshalAttrs k rest with
    | .error e => .error e
    | .ok more =>
      if finfo.attr = false then .ok more
      else if finfo.omitEmpty && k.isEmpty v then .ok more
      else
        match k.attr finfo.name v with
        | .error e => .error e
        | .ok attrs => .ok (attrs ++ more)

/-- Go `marshalStruct`: every field without the `attr` flag, in order; before
each the parent stack is trimmed to the parents of the field and the missing
parents are opened (the fields here are neither pointers nor interfaces, so
they are opened also for an empty value); at the end all parents are
closed. -/
def marshalStruct {α : Type} (k : XmlKind α) :
    List String → List (XmlFieldInfo × α) → Except String (List XmlToken)
  | stack, [] => .ok (trim stack []).1
  | stack, (finfo, v) :: rest =>
    if finfo.attr = true then marshalStruct k stack rest
    else
      let t := trim stack finfo.parents
      let p :=
        if finfo.parents.length > t.2.length then push t.2 (finfo.parents.drop t.2.length)
        else ([], t.2)
      let body : Except String (List XmlToken) :=
        if finfo.omitEmpty && k.isEmpty v then .ok [] else k.element finfo v
      match body with
      | .error e => .error e
      | .ok toks =>
        match marshalStruct k p.2 rest with
        | .error e => .error e
        | .ok more => .ok (t.1 ++ p.1 ++ toks ++ more)

/-- Go `marshalValue` on a struct: the element name is the name part of the
`XMLName` tag, else the `Local` of the `XMLName` value, else the name given
by the enclosing field, else the type name; then the start tag with the
attributes, the fields, and the end tag. -/
def marshalStructValue {α : Type} (k : XmlKind α) (typeName : String)
    (fields : List (Field α)) (fieldName : String) : Except String (List XmlToken) :=
  match getTypeInfo fields with
  | .error e => .error e
  | .ok tinfo =>
    let fromXMLName : String :=
      match tinfo.xmlname with
      | none => ""
      | some (finfo, v) =>
        if finfo.name ≠ "" then finfo.name
        else
          match k.asName v with
          | some n => n.Local
          | none => ""
    let name := if fromXMLName ≠ "" then fromXMLName else fieldName
    let name := if name ≠ "" then name else typeName
    match marshalAttrs k tinfo.fields with
    | .error e => .error e
    | .ok attrs =>
      match marshalStruct k [] tinfo.fields with
      | .error e => .error e
      | .ok body => .ok ([.startElement name attrs] ++ body ++ [.endElement name])

/-- An element that holds one text. -/
def textElement (name text : String) : List XmlToken :=
  [.startElement name [], .charData text, .endElement name]

/-- Marshalling of the simple kinds: a slice of strings gives one attribute,
or one element, per entry. -/
def simpleKind : XmlKind SimpleValue where
  isEmpty := SimpleValue.isEmpty
  asName := fun _ => none
  attr := fun name v =>
    match v with
    | .strs xs => .ok (xs.elems.map (fun s => (name, s)))
    | v =>
      match marshalSimple v with
      | some s => .ok [(name, s)]
      | none => .error "xml: unsupported type"
  element := fun finfo v =>
    match v with
    | .strs xs => .ok (xs.elems.flatMap (fun s => textElement finfo.name s))
    | v =>
      match marshalSimple v with
      | some s => .ok (textElement finfo.name s)
      | none => .error "xml: unsupported type"

/-- Runs a marshalling step on every entry of a slice, in order, and stops at
the first error. -/
def marshalEach {α : Type} (f : α → Except String (List XmlToken)) :
    List α → Except String (List XmlToken)
  | [] => .ok []
  | x :: xs =>
    match f x with
    | .error e => .error e
    | .ok toks =>
      match marshalEach f xs with
      | .error e => .error e
      | .ok more => .ok (toks ++ more)

/-- Marshalling of the kinds of `SummaryObject`: an `xml.Name` and every
entry of a slice of results is a struct element; a struct cannot be an
attribute. -/
def fieldKind : XmlKind FieldValue where
  isEmpty := FieldValue.isEmpty
  asName := fun v =>
    match v with
    | .name n => some n
    | _ => none
  attr := fun name v =>
    match v with
    | .simple v => simpleKind.attr name v
    | _ => .error "xml: unsupported type"
  element := fun finfo v =>
    match v with
    | .simple v => simpleKind.element finfo v
    | .name n => marshalStructValue simpleKind "Name" n.fields finfo.name
    | .results rs =>
      marshalEach (fun t => marshalStructValue simpleKind "TestResult" t.fields finfo.name)
        (match rs with
          | none => []
          | some ts => ts)

/-- Go `xml.Marshal(s)` for a `SummaryObject`. -/
def xmlMarshal (s : SummaryObject) : Except String (List XmlToken) :=
  marshalStructValue fieldKind "SummaryObject" s.fields ""

/-- Names that occur in a token: the element name and the attribute names. -/
def XmlToken.names : XmlToken → List String
  | .startElement name attrs => name :: attrs.map Prod.fst
  | .charData _ => []
  | .endElement name => [name]

/-- Names of the elements and attributes of the XML rendering of a summary;
none when the marshaller fails. -/
def xmlNames (s : SummaryObject) : List String :=
  match xmlMarshal s with
  | .ok toks => toks.flatMap XmlToken.names
  | .error _ => []

/-! ## `encoding/json`

The output is the list of members of the object, in order, each with its key
and its value. -/

/-- Value without nested objects. -/
inductive JsonLeaf where
  | null
  | number (n : Int)
  | bool (b : Bool)
  | string (s : String)
  | strings (xs : List String)
  deriving DecidableEq, Repr

/-- Value of a member of the summary object. -/
inductive JsonValue where
  | leaf (v : JsonLeaf)
  | object (members : List (String × JsonLeaf))
  | objects (xs : List (List (String × JsonLeaf)))
  deriving DecidableEq, Repr

/-- What `encoding/json` keeps of a field tag: nothing for the tag `-`, else
the key (the name part of the tag, or the field name when that is empty) and
whether `omitempty` is among the options. -/
def jsonFieldInfo (fieldName tag : String) : Option (String × Bool) :=
  if tag = "-" then none
  else
    let tokens := Split tag ','
    let namePart := tokens.headD ""
    some (if namePart = "" then fieldName else namePart, tokens.tail.contains "omitempty")

/-- Members of the object of a struct: every field not tagged `-`, in order,
left out when it is `omitempty` and empty. -/
def jsonMembers {α β : Type} (isEmpty : α → Bool) (encode : α → β) :
    List (Field α) → List (String × β)
  | [] => []
  | f :: rest =>
    match jsonFieldInfo f.name f.jsonTag with
    | none => jsonMembers isEmpty encode rest
    | some (key, omitEmpty) =>
      if omitEmpty && isEmpty f.value then jsonMembers isEmpty encode rest
      else (key, encode f.value) :: jsonMembers isEmpty encode rest

/-- Encoding of the simple kinds; a nil slice is `null`. -/
def encodeSimple : SimpleValue → JsonLeaf
  | .int n => .number n
  | .bool b => .bool b
  | .str s => .string s
  | .strs none => .null
  | .strs (some xs) => .strings xs

/-- Go `json.Marshal(t)` for a `TestResult`. -/
def jsonMarshalResult (t : TestResult) : List (String × JsonLeaf) :=
  jsonMembers SimpleValue.isEmpty encodeSimple t.fields

/-- Encoding of the kinds of `SummaryObject`. -/
def encodeField : FieldValue → JsonValue
  | .simple v => .leaf (encodeSimple v)
  | .name n => .object (jsonMembers SimpleValue.isEmpty encodeSimple n.fields)
  | .results none => .leaf .null
  | .results (some ts) => .objects (ts.map jsonMarshalResult)

/-- Go `json.Marshal(s)` for a `SummaryObject`. -/
def jsonMarshal (s : SummaryObject) : List (String × JsonValue) :=
  jsonMembers FieldValue.isEmpty encodeField s.fields

/-- The `testcase` element of one result: the start tag with the attributes
`name` and `time`, one `failure` element per entry of `Errors` in list order,
and the end tag. -/
def testcaseElement (t : TestResult) : List XmlToken :=
  [.startElement "testcase" [("name", t.Name), ("time", toString t.Duration.ns)]] ++
    t.Errors.elems.flatMap
      (fun e => [.startElement "failure" [], .charData e, .endElement "failure"]) ++
    [.endElement "testcase"]

/-- Entries of a slice of results; the nil slice has none. -/
def resultElems : Option (List TestResult) → List TestResult
  | none => []
  | some ts => ts

/-! ## Helper lemmas -/

theorem len_eq_zero_iff (s : String) : len s = 0 ↔ s = "" := by
  constructor
  · intro h
    rcases s with ⟨cs⟩
    cases cs with
    | nil => rfl
    | cons c cs =>
      have hc := Char.utf8Size_pos c
      simp only [len, String.utf8ByteSize, String.utf8ByteSize.go] at h
      omega
  · intro h
    subst h
    rfl

theorem elems_append (s : StrSlice) (x : String) :
    (s.append x).elems = s.elems ++ [x] := rfl

theorem slice_nonempty_iff (s : StrSlice) :
    (!s.isNil && decide (s.len > 0)) = true ↔ s.elems ≠ [] := by
  cases s with
  | none => simp [StrSlice.isNil, StrSlice.len, StrSlice.elems]
  | some xs =>
    cases xs <;> simp [StrSlice.isNil, StrSlice.len, StrSlice.elems]

theorem foldl_Error_elems (ms : List String) (t : TestResult) :
    (ms.foldl TestResult.Error t).Errors.elems = t.Errors.elems ++ ms := by
  induction ms generalizing t with
  | nil => simp
  | cons m ms ih =>
    rw [List.foldl_cons, ih]
    simp [TestResult.Error, elems_append]

theorem call_keeps_failing (t : TestResult) (m : Mutator) (h : t.IsPass = false) :
    (t.call m).IsPass = false := by
  cases m <;> simp_all [TestResult.call, TestResult.Error, TestResult.Errorf, TestResult.Fail,
    TestResult.IsPass]

theorem calls_keep_failing (ms : List Mutator) (t : TestResult) (h : t.IsPass = false) :
    (t.calls ms).IsPass = false := by
  induction ms generalizing t with
  | nil => simpa [TestResult.calls] using h
  | cons m ms ih =>
    have := ih (t.call m) (call_keeps_failing t m h)
    simpa [TestResult.calls] using this

/-! ### Formatting with one string operand -/

theorem doPrintf_plain (pre rest : List Char) (args : List Arg) (h : '%' ∉ pre) :
    doPrintf false (pre ++ rest) args = pre ++ doPrintf false rest args := by
  induction pre with
  | nil => rfl
  | cons c pre ih =>
    have hc : c ≠ '%' := fun e => h (by simp [e])
    have hp : '%' ∉ pre := fun e => h (by simp [e])
    simp [doPrintf, hc, ih hp]

theorem Sprintf_one_string (pre post : List Char) (x : String)
    (hpre : '%' ∉ pre) (hpost : '%' ∉ post) :
    Sprintf (String.mk (pre ++ '%' :: 's' :: post)) [.str x] =
      String.mk pre ++ x ++ String.mk post := by
  apply String.ext
  have h := doPrintf_plain post [] [] hpost
  simp only [List.append_nil] at h
  simp [Sprintf, doPrintf_plain _ _ _ hpre, doPrintf, printArg, h, extraArgs]

theorem splitLines_ne_nil (cs : List Char) : splitLines cs ≠ [] := by
  cases cs with
  | nil => simp [splitLines]
  | cons c cs =>
    simp only [splitLines]
    split
    · simp
    · split <;> simp

theorem splitLines_append_newline (a b : List Char) :
    splitLines (a ++ '\n' :: b) = splitLines a ++ splitLines b := by
  induction a with
  | nil => simp [splitLines]
  | cons c a ih =>
    by_cases hc : c = '\n'
    · simp [splitLines, hc, ih]
    · obtain ⟨l, ls, hl⟩ : ∃ l ls, splitLines a = l :: ls := by
        cases h : splitLines a with
        | nil => exact absurd h (splitLines_ne_nil a)
        | cons l ls => exact ⟨l, ls, rfl⟩
      simp [splitLines, hc, ih, hl]

theorem splitLines_of_no_newline (l : List Char) (h : '\n' ∉ l) : splitLines l = [l] := by
  induction l with
  | nil => rfl
  | cons c l ih =>
    have hc : c ≠ '\n' := fun e => h (by simp [e])
    have hl : '\n' ∉ l := fun e => h (by simp [e])
    simp [splitLines, hc, ih hl]

/-! ### Joining -/

theorem foldl_join_append (sep a b : String) (rest : List String) :
    rest.foldl (fun acc s => acc ++ sep ++ s) (a ++ b) =
      a ++ rest.foldl (fun acc s => acc ++ sep ++ s) b := by
  induction rest generalizing b with
  | nil => rfl
  | cons y rest ih =>
    simp only [List.foldl_cons]
    rw [String.append_assoc, String.append_assoc, ← String.append_assoc b, ih]

theorem Join_eq_commaSeparated (errs : StrSlice) :
    Join errs "," = commaSeparated errs.elems := by
  have key : ∀ (rest : List String) (x : String),
      rest.foldl (fun acc s => acc ++ "," ++ s) x = commaSeparated (x :: rest) := by
    intro rest
    induction rest with
    | nil => intro x; rfl
    | cons y rest ih =>
      intro x
      simp only [List.foldl_cons, commaSeparated]
      rw [String.append_assoc, foldl_join_append, foldl_join_append, ih y, ← String.append_assoc]
  unfold Join
  cases h : errs.elems with
  | nil => rfl
  | cons x rest =>
    cases rest with
    | nil => rfl
    | cons y rest => exact key (y :: rest) x

/-! ### Characters of a duration -/

theorem digitByte_ne_newline (v : Nat) : digitByte (v % 10) ≠ '\n' := by
  have h : ∀ d : Fin 10, digitByte d.val ≠ '\n' := by decide
  exact h ⟨v % 10, Nat.mod_lt _ (by decide)⟩

theorem fmtFracLoop_no_newline (i : Nat) (buf : List Char) (v : Nat) (p : Bool)
    (h : '\n' ∉ buf) : '\n' ∉ (fmtFracLoop i buf v p).1 := by
  induction i generalizing buf v p with
  | zero => simpa [fmtFracLoop] using h
  | succ i ih =>
    simp only [fmtFracLoop]
    apply ih
    split
    · intro hm
      rcases List.mem_cons.1 hm with e | e
      · exact digitByte_ne_newline v e.symm
      · exact h e
    · exact h

theorem fmtFrac_no_newline (buf : List Char) (v prec : Nat) (h : '\n' ∉ buf) :
    '\n' ∉ (fmtFrac buf v prec).1 := by
  have := fmtFracLoop_no_newline prec buf v false h
  simp only [fmtFrac]
  split
  · intro hm
    rcases List.mem_cons.1 hm with e | e
    · exact absurd e (by decide)
    · exact this e
  · exact this

/-- The value itself is enough fuel for the loop of `fmtInt`: any two
amounts of fuel that are at least the value give the same digits. -/
theorem fmtIntLoop_fuel (fuel₁ fuel₂ : Nat) (buf : List Char) (v : Nat)
    (h₁ : v ≤ fuel₁) (h₂ : v ≤ fuel₂) :
    fmtIntLoop fuel₁ buf v = fmtIntLoop fuel₂ buf v := by
  induction fuel₁ generalizing fuel₂ buf v with
  | zero =>
    have hv : v = 0 := by omega
    subst hv
    cases fuel₂ <;> simp [fmtIntLoop]
  | succ n ih =>
    cases fuel₂ with
    | zero =>
      have hv : v = 0 := by omega
      subst hv
      simp [fmtIntLoop]
    | succ m =>
      simp only [fmtIntLoop]
      split
      · apply ih <;> omega
      · rfl

theorem fmtIntLoop_no_newline (fuel : Nat) (buf : List Char) (v : Nat) (h : '\n' ∉ buf) :
    '\n' ∉ fmtIntLoop fuel buf v := by
  induction fuel generalizing buf v with
  | zero => simpa [fmtIntLoop] using h
  | succ fuel ih =>
    simp only [fmtIntLoop]
    split
    · apply ih
      intro hm
      rcases List.mem_cons.1 hm with e | e
      · exact digitByte_ne_newline v e.symm
      · exact h e
    · exact h

theorem fmtInt_no_newline (buf : List Char) (v : Nat) (h : '\n' ∉ buf) :
    '\n' ∉ fmtInt buf v := by
  simp only [fmtInt]
  split
  · intro hm
    rcases List.mem_cons.1 hm with e | e
    · exact absurd e (by decide)
    · exact h e
  · exact fmtIntLoop_no_newline _ _ _ h

theorem cons_no_newline (c : Char) (buf : List Char) (hc : c ≠ '\n') (h : '\n' ∉ buf) :
    '\n' ∉ c :: buf := by
  intro hm
  rcases List.mem_cons.1 hm with e | e
  · exact hc e.symm
  · exact h e

theorem Duration_format_no_newline (d : Duration) : '\n' ∉ d.format := by
  have hs : '\n' ∉ ['s'] := by decide
  have hns : '\n' ∉ ['n', 's'] := by decide
  have hus : '\n' ∉ ['µ', 's'] := by decide
  have hms : '\n' ∉ ['m', 's'] := by decide
  have h0 : '\n' ∉ ['0', 's'] := by decide
  have neg : ∀ (b : Bool) (w : List Char), '\n' ∉ w → '\n' ∉ (if b = true then '-' :: w else w) := by
    intro b w hw
    split
    · exact cons_no_newline _ _ (by decide) hw
    · exact hw
  unfold Duration.format
  simp only
  split
  · split
    · exact h0
    · apply neg
      apply fmtInt_no_newline
      split
      · exact fmtFrac_no_newline _ _ _ hns
      · split
        · exact fmtFrac_no_newline _ _ _ hus
        · exact fmtFrac_no_newline _ _ _ hms
  · apply neg
    have hw := fmtInt_no_newline _ ((fmtFrac ['s'] d.ns.natAbs 9).2 % 60)
      (fmtFrac_no_newline ['s'] d.ns.natAbs 9 hs)
    split
    · have hm := fmtInt_no_newline _ ((fmtFrac ['s'] d.ns.natAbs 9).2 / 60 % 60)
        (cons_no_newline 'm' _ (by decide) hw)
      split
      · exact fmtInt_no_newline _ _ (cons_no_newline 'h' _ (by decide) hm)
      · exact hm
    · exact hw

theorem Duration_String_no_newline (d : Duration) : '\n' ∉ d.String.data :=
  Duration_format_no_newline d

theorem lines_append_newline (a b : String) :
    lines (a ++ "\n" ++ b) = lines a ++ lines b := by
  have e : (a ++ "\n" ++ b).data = a.data ++ '\n' :: b.data := by
    simp [String.data_append]
  simp [lines, e, splitLines_append_newline]

theorem lines_of_no_newline (l : String) (h : '\n' ∉ l.data) : lines l = [l] := by
  simp [lines, splitLines_of_no_newline _ h]

theorem commaSeparated_no_newline (es : List String) (h : ∀ e ∈ es, '\n' ∉ e.data) :
    '\n' ∉ (commaSeparated es).data := by
  induction es with
  | nil => simp [commaSeparated]
  | cons x rest ih =>
    cases rest with
    | nil => simpa [commaSeparated] using h
    | cons y rest =>
      have hx : '\n' ∉ x.data := h x (by simp)
      have hr := ih (fun e he => h e (List.mem_cons_of_mem _ he))
      have hc : '\n' ∉ ",".data := by decide
      simp only [commaSeparated, String.data_append, List.mem_append, not_or]
      exact ⟨⟨hx, hc⟩, hr⟩

/-- Lines of a text that ends with the error segment and the duration
segment, when neither the joined errors nor the duration holds a newline. -/
theorem lines_error_tail (head errs dur : String) (he : '\n' ∉ errs.data)
    (hd : '\n' ∉ dur.data) :
    lines (head ++ "\nErrors:" ++ errs ++ "\n" ++ "\nDuration:" ++ dur ++ "\n") =
      lines head ++ ["Errors:" ++ errs, "", "Duration:" ++ dur, ""] := by
  have e : head ++ "\nErrors:" ++ errs ++ "\n" ++ "\nDuration:" ++ dur ++ "\n" =
      head ++ "\n" ++ (("Errors:" ++ errs) ++ "\n" ++ ("" ++ "\n" ++
        (("Duration:" ++ dur) ++ "\n" ++ ""))) := by
    apply String.ext
    simp [String.data_append]
  have h1 : '\n' ∉ ("Errors:" ++ errs).data := by
    have : '\n' ∉ "Errors:".data := by decide
    simp only [String.data_append, List.mem_append, not_or]
    exact ⟨this, he⟩
  have h2 : '\n' ∉ ("Duration:" ++ dur).data := by
    have : '\n' ∉ "Duration:".data := by decide
    simp only [String.data_append, List.mem_append, not_or]
    exact ⟨this, hd⟩
  have h3 : '\n' ∉ "".data := by decide
  rw [e, lines_append_newline, lines_append_newline, lines_append_newline,
    lines_append_newline, lines_of_no_newline _ h1, lines_of_no_newline _ h2,
    lines_of_no_newline _ h3]
  rfl

/-! ### Shape of the human rendering -/

theorem String_eq (t : TestResult) :
    t.String =
      "\nTest Name:" ++ t.Name ++
        ("\nTest Status:" ++ (if t.IsPass = true then "Pass" else "Fail")) ++
        (if t.Stdout = "" then "" else "\nStdout:" ++ t.Stdout) ++
        (if t.Stderr = "" then "" else "\nStderr:" ++ t.Stderr) ++
        ("\nErrors:" ++ Join t.Errors "," ++ "\n") ++
        ("\nDuration:" ++ t.Duration.String ++ "\n") := by
  have hName : Sprintf "\nTest Name:%s" [.str t.Name] = "\nTest Name:" ++ t.Name := by
    simpa using Sprintf_one_string "\nTest Name:".data [] t.Name (by decide) (by decide)
  have hStatus : ∀ x : String, Sprintf "\nTest Status:%s" [.str x] = "\nTest Status:" ++ x := by
    intro x
    simpa using Sprintf_one_string "\nTest Status:".data [] x (by decide) (by decide)
  have hOut : Sprintf "\nStdout:%s" [.str t.Stdout] = "\nStdout:" ++ t.Stdout := by
    simpa using Sprintf_one_string "\nStdout:".data [] t.Stdout (by decide) (by decide)
  have hErr : Sprintf "\nStderr:%s" [.str t.Stderr] = "\nStderr:" ++ t.Stderr := by
    simpa using Sprintf_one_string "\nStderr:".data [] t.Stderr (by decide) (by decide)
  have hErrors : Sprintf "\nErrors:%s\n" [.str (Join t.Errors ",")] =
      "\nErrors:" ++ Join t.Errors "," ++ "\n" :=
    Sprintf_one_string "\nErrors:".data "\n".data (Join t.Errors ",") (by decide) (by decide)
  have hDur : Sprintf "\nDuration:%s\n" [.str t.Duration.String] =
      "\nDuration:" ++ t.Duration.String ++ "\n" :=
    Sprintf_one_string "\nDuration:".data "\n".data t.Duration.String (by decide) (by decide)
  unfold TestResult.String
  simp only [hName, hStatus, hOut, hErr, hErrors, hDur]
  by_cases h1 : t.Stdout = "" <;> by_cases h2 : t.Stderr = "" <;>
    by_cases h3 : t.IsPass = true <;> simp [h1, h2, h3]

theorem String_tail (t : TestResult) :
    t.String =
      headSegments t ++ "\nErrors:" ++ commaSeparated t.Errors.elems ++ "\n" ++
        "\nDuration:" ++ t.Duration.String ++ "\n" := by
  rw [String_eq, Join_eq_commaSeparated]
  simp only [headSegments, String.append_assoc]

/-! ## Output format selector -/

/-- C1: for each of the three canonical names and every prior value, `Set`
returns no error and `String` of the value it leaves is the name itself. -/
theorem set_then_string_is_identity (o : OutputValue) (s : String)
    (hs : s = "text" ∨ s = "json" ∨ s = "junit") :
    (o.Set s).2 = none ∧ (o.Set s).1.String = .ok s := by
  rcases hs with h | h | h <;> subst h <;> constructor <;> rfl

theorem set_then_string_is_identity_witness :
    ("json" = "text" ∨ "json" = "json" ∨ "json" = "junit") ∧
      (Junit.Set "json").2 = none ∧ (Junit.Set "json").1.String = .ok "json" :=
  ⟨by decide, set_then_string_is_identity Junit "json" (by decide)⟩

/-- C2: for every string other than the three canonical names (the comparison
is exact, so a different case or the empty string does not match) and every
prior value, `Set` returns an error and leaves the value as it was. -/
theorem set_unknown_fails_and_keeps_value (o : OutputValue) (s : String)
    (h1 : s ≠ "text") (h2 : s ≠ "json") (h3 : s ≠ "junit") :
    (o.Set s).2 ≠ none ∧ (o.Set s).1 = o := by
  simp [OutputValue.Set, h1, h2, h3]

theorem set_unknown_fails_and_keeps_value_witness :
    ((Json.Set "JSON").2 ≠ none ∧ (Json.Set "JSON").1 = Json) ∧
      ((Junit.Set "Text").2 ≠ none ∧ (Junit.Set "Text").1 = Junit) ∧
      ((Json.Set "").2 ≠ none ∧ (Json.Set "").1 = Json) :=
  ⟨set_unknown_fails_and_keeps_value Json "JSON" (by decide) (by decide) (by decide),
    set_unknown_fails_and_keeps_value Junit "Text" (by decide) (by decide) (by decide),
    set_unknown_fails_and_keeps_value Json "" (by decide) (by decide) (by decide)⟩

/-- C3: `Text`, `Json` and `Junit` are the ordinals 0, 1 and 2 and render as
"text", "json" and "junit"; on every ordinal below 0 or at least 3 `String`
raises the index-out-of-range fault and returns no string. -/
theorem string_by_ordinal :
    Text = ⟨0⟩ ∧ Json = ⟨1⟩ ∧ Junit = ⟨2⟩ ∧
      Text.String = .ok "text" ∧ Json.String = .ok "json" ∧ Junit.String = .ok "junit" ∧
      ∀ o : OutputValue, o.ord < 0 ∨ 3 ≤ o.ord →
        o.String = .error (.indexOutOfRange o.ord 3) := by
  refine ⟨rfl, rfl, rfl, by decide, by decide, by decide, ?_⟩
  rintro ⟨n⟩ h
  simp only [OutputValue.String, arrayIndex]
  rcases h with h | h
  · simp only at h
    simp [h]
  · simp only at h
    have hn : ¬ n < 0 := by omega
    have h3 : 3 ≤ n.toNat := by omega
    obtain ⟨k, hk⟩ : ∃ k, n.toNat = k + 3 := ⟨n.toNat - 3, by omega⟩
    simp [hn, hk]

theorem string_by_ordinal_witness :
    OutputValue.String ⟨-1⟩ = .error (.indexOutOfRange (-1) 3) ∧
      OutputValue.String ⟨3⟩ = .error (.indexOutOfRange 3 3) :=
  ⟨string_by_ordinal.2.2.2.2.2.2 ⟨-1⟩ (Or.inl (by decide)),
    string_by_ordinal.2.2.2.2.2.2 ⟨3⟩ (Or.inr (by decide))⟩

/-! ## Run options -/

/-- C4: `IsSet` is true exactly when the user is non-empty, or privileged or
TTY is set, or the env file is non-empty, or one of the three sequences has an
element (the nil slice and the empty slice alike have none); it is false on
the zero value and true when only `Privileged` is set. -/
theorem isSet_iff_some_field_set (opts : ContainerRunOptions) :
    (opts.IsSet = true ↔
      (opts.User ≠ "" ∨ opts.Privileged = true ∨ opts.TTY = true ∨ opts.EnvFile ≠ "" ∨
        opts.EnvVars.elems ≠ [] ∨ opts.Capabilities.elems ≠ [] ∨
        opts.BindMounts.elems ≠ [])) ∧
      ContainerRunOptions.IsSet ⟨"", false, false, none, "", none, none⟩ = false ∧
      ContainerRunOptions.IsSet ⟨"", false, false, some [], "", some [], some []⟩ = false ∧
      ContainerRunOptions.IsSet ⟨"", true, false, none, "", none, none⟩ = true := by
  refine ⟨?_, by decide, by decide, by decide⟩
  have hU : (len opts.User != 0) = true ↔ opts.User ≠ "" := by
    simp [len_eq_zero_iff]
  have hF : decide (len opts.EnvFile > 0) = true ↔ opts.EnvFile ≠ "" := by
    simp [Nat.pos_iff_ne_zero, len_eq_zero_iff]
  simp only [ContainerRunOptions.IsSet, Bool.or_eq_true, hU, hF, slice_nonempty_iff]
  tauto

/-! ## Recording errors and failure -/

/-- C5: calling `Error` with the messages `ms` in order leaves `Errors` equal
to the original entries followed by `ms`; every call adds one entry at the
end, and the same message given twice is kept twice. -/
theorem error_appends_in_call_order (t : TestResult) (ms : List String) :
    (ms.foldl TestResult.Error t).Errors.elems = t.Errors.elems ++ ms ∧
      (∀ m : String, (t.Error m).Errors.elems = t.Errors.elems ++ [m] ∧
        (t.Error m).Errors.len = t.Errors.len + 1 ∧
        ((t.Error m).Error m).Errors.elems = t.Errors.elems ++ [m, m]) := by
  refine ⟨foldl_Error_elems ms t, fun m => ⟨rfl, ?_, ?_⟩⟩
  · simp [TestResult.Error, StrSlice.len, elems_append]
  · simp [TestResult.Error, elems_append]

/-- C7: after any sequence of `Error`, `Errorf` and `Fail` calls that contains
a `Fail`, `IsPass` is false; and a result whose `IsPass` is false still has it
false after any one mutator call, so no mutator sets `Pass` to true. -/
theorem fail_is_one_directional :
    (∀ (t : TestResult) (ms : List Mutator), Mutator.Fail ∈ ms →
        (t.calls ms).IsPass = false) ∧
      (∀ (t : TestResult) (m : Mutator), t.IsPass = false → (t.call m).IsPass = false) := by
  refine ⟨?_, call_keeps_failing⟩
  intro t ms hmem
  obtain ⟨pre, post, rfl⟩ := List.append_of_mem hmem
  have h1 : ((t.calls pre).call Mutator.Fail).IsPass = false := rfl
  have := calls_keep_failing post _ h1
  simpa [TestResult.calls] using this

theorem fail_is_one_directional_witness :
    (TestResult.calls ⟨"t", true, "", "", none, ⟨0⟩⟩
        [.Error "e", .Fail, .Errorf "code=%d" [.int 7]]).IsPass = false ∧
      (TestResult.call ⟨"t", false, "", "", none, ⟨0⟩⟩ (.Error "e")).IsPass = false :=
  ⟨fail_is_one_directional.1 _ _ (by decide), fail_is_one_directional.2 _ _ rfl⟩

/-! ## Human rendering -/

/-- C8: `String` is the concatenation, in this order, of the name segment, the
status segment (label "Pass" exactly when `IsPass` is true, else "Fail"), the
stdout segment when `Stdout` is non-empty, the stderr segment when `Stderr` is
non-empty, the error segment "Errors:" with the entries joined by "," (also
when there is none) and the duration segment; each segment opens with a
newline and an absent stdout or stderr segment is the empty text. -/
theorem string_is_concatenation_of_segments (t : TestResult) :
    t.String =
      "\nTest Name:" ++ t.Name ++
        ("\nTest Status:" ++ (if t.IsPass = true then "Pass" else "Fail")) ++
        (if t.Stdout = "" then "" else "\nStdout:" ++ t.Stdout) ++
        (if t.Stderr = "" then "" else "\nStderr:" ++ t.Stderr) ++
        ("\nErrors:" ++ Join t.Errors "," ++ "\n") ++
        ("\nDuration:" ++ t.Duration.String ++ "\n") :=
  String_eq t

/-- C9, as stated, fails: on a passing result named "t" with no output, no
error and a zero duration, the line right after "Errors:" is an empty line and
not the duration line. -/
theorem errors_line_not_followed_by_duration_line :
    lines (TestResult.String ⟨"t", true, "", "", none, ⟨0⟩⟩) =
        ["", "Test Name:t", "Test Status:Pass", "Errors:", "", "Duration:0s", ""] ∧
      followedBy "Errors:" ("Duration:" ++ Duration.String ⟨0⟩)
        (lines (TestResult.String ⟨"t", true, "", "", none, ⟨0⟩⟩)) = false := by
  decide

/-- C9, amended: when `Errors` is empty the rendering ends with the error line
"Errors:" with nothing after the colon, then exactly one empty line, then the
duration line; nothing else lies between the error line and the duration
line. -/
theorem empty_errors_line_blank_line_then_duration (t : TestResult)
    (h : t.Errors.elems = []) :
    t.String =
        headSegments t ++ "\nErrors:" ++ "\n" ++ "\nDuration:" ++ t.Duration.String ++ "\n" ∧
      lines t.String =
        lines (headSegments t) ++ ["Errors:", "", "Duration:" ++ t.Duration.String, ""] := by
  have hs := String_tail t
  have hl := lines_error_tail (headSegments t) "" t.Duration.String (by decide)
    (Duration_String_no_newline _)
  rw [h] at hs
  simp only [commaSeparated, String.append_empty] at hs hl
  exact ⟨hs, by rw [hs]; exact hl⟩

theorem empty_errors_line_blank_line_then_duration_witness :
    lines (TestResult.String ⟨"t", false, "out", "", some [], ⟨1500000000⟩⟩) =
      lines (headSegments ⟨"t", false, "out", "", some [], ⟨1500000000⟩⟩) ++
        ["Errors:", "", "Duration:" ++ Duration.String ⟨1500000000⟩, ""] :=
  (empty_errors_line_blank_line_then_duration
    ⟨"t", false, "out", "", some [], ⟨1500000000⟩⟩ rfl).2

/-- C10: with `Errors` equal to "a", "b" the rendering contains the line
"Errors:a,b"; for every `Errors` the error segment is "Errors:" followed by
the entries in list order separated by single commas, with no separator in
front or at the end, and it is a line of its own whenever no entry contains a
newline. -/
theorem errors_line_is_comma_separated :
    (∀ t : TestResult, t.Errors.elems = ["a", "b"] → "Errors:a,b" ∈ lines t.String) ∧
      (∀ t : TestResult,
        t.String =
          headSegments t ++ "\n" ++ ("Errors:" ++ commaSeparated t.Errors.elems) ++ "\n" ++
            "\nDuration:" ++ t.Duration.String ++ "\n") ∧
      (∀ t : TestResult, (∀ e ∈ t.Errors.elems, '\n' ∉ e.data) →
        lines t.String =
          lines (headSegments t) ++
            ["Errors:" ++ commaSeparated t.Errors.elems, "",
              "Duration:" ++ t.Duration.String, ""]) := by
  have hs := String_tail
  have hl : ∀ t : TestResult, (∀ e ∈ t.Errors.elems, '\n' ∉ e.data) →
      lines t.String =
        lines (headSegments t) ++
          ["Errors:" ++ commaSeparated t.Errors.elems, "",
            "Duration:" ++ t.Duration.String, ""] := by
    intro t ht
    rw [hs]
    exact lines_error_tail (headSegments t) _ t.Duration.String
      (commaSeparated_no_newline _ ht) (Duration_String_no_newline _)
  refine ⟨?_, ?_, hl⟩
  · intro t ht
    have hne : ∀ e ∈ t.Errors.elems, '\n' ∉ e.data := by
      rw [ht]
      decide
    rw [hl t hne, ht]
    have : "Errors:" ++ commaSeparated ["a", "b"] = "Errors:a,b" := by decide
    simp [this]
  · intro t
    rw [hs]
    simp only [String.append_assoc]
    rfl

theorem errors_line_is_comma_separated_witness :
    "Errors:a,b" ∈ lines (TestResult.String ⟨"t", true, "", "", some ["a", "b"], ⟨0⟩⟩) ∧
      lines (TestResult.String ⟨"t", true, "", "", some ["x", "y", "z"], ⟨0⟩⟩) =
        lines (headSegments ⟨"t", true, "", "", some ["x", "y", "z"], ⟨0⟩⟩) ++
          ["Errors:" ++ commaSeparated ["x", "y", "z"], "", "Duration:" ++ Duration.String ⟨0⟩,
            ""] :=
  ⟨errors_line_is_comma_separated.1 _ rfl,
    errors_line_is_comma_separated.2.2 ⟨"t", true, "", "", some ["x", "y", "z"], ⟨0⟩⟩
      (by decide)⟩

/-! ## Status label, error message and frame of the mutators -/

theorem set_one_of_three (o : OutputValue) (v : String)
    (h : o = Text ∨ o = Json ∨ o = Junit) :
    (o.Set v).1 = Text ∨ (o.Set v).1 = Json ∨ (o.Set v).1 = Junit := by
  unfold OutputValue.Set
  split
  · exact Or.inl rfl
  · split
    · exact Or.inr (Or.inl rfl)
    · split
      · exact Or.inr (Or.inr rfl)
      · exact h

theorem setAll_one_of_three (values : List String) (o : OutputValue)
    (h : o = Text ∨ o = Json ∨ o = Junit) :
    setAll o values = Text ∨ setAll o values = Json ∨ setAll o values = Junit := by
  induction values generalizing o with
  | nil => simpa [setAll] using h
  | cons v rest ih =>
    have := ih (o.Set v).1 (set_one_of_three o v h)
    simpa [setAll] using this

theorem calls_without_Fail_keep_Pass (ms : List Mutator) (t : TestResult)
    (h : Mutator.Fail ∉ ms) : (t.calls ms).Pass = t.Pass := by
  induction ms generalizing t with
  | nil => rfl
  | cons m ms ih =>
    have hm : m ≠ Mutator.Fail := fun e => h (by simp [e])
    have hms : Mutator.Fail ∉ ms := fun e => h (by simp [e])
    have h1 : (t.call m).Pass = t.Pass := by
      cases m with
      | Error s => rfl
      | Errorf s args => rfl
      | Fail => exact absurd rfl hm
    have := ih (t.call m) hms
    simpa [TestResult.calls, h1] using this

/-- C11, as stated, fails: a result with `Pass` true and the one error "boom"
renders the status line "Test Status:Pass" and no line "Test Status:Fail". -/
theorem errors_do_not_force_fail_label :
    StrSlice.elems (TestResult.Errors ⟨"t", true, "", "", some ["boom"], ⟨0⟩⟩) ≠ [] ∧
      lines (TestResult.String ⟨"t", true, "", "", some ["boom"], ⟨0⟩⟩) =
        ["", "Test Name:t", "Test Status:Pass", "Errors:boom", "", "Duration:0s", ""] ∧
      "Test Status:Fail" ∉ lines (TestResult.String ⟨"t", true, "", "", some ["boom"], ⟨0⟩⟩) := by
  decide

/-- C11, amended: for every result with at least one entry in `Errors`, the
status label of the rendering follows the `Pass` flag alone: it is "Fail" when
`Pass` is false and "Pass" when `Pass` is true. -/
theorem status_label_follows_pass_flag (t : TestResult) (_h : t.Errors.elems ≠ []) :
    (t.Pass = false →
        t.String =
          "\nTest Name:" ++ t.Name ++ "\nTest Status:Fail" ++
            (if t.Stdout = "" then "" else "\nStdout:" ++ t.Stdout) ++
            (if t.Stderr = "" then "" else "\nStderr:" ++ t.Stderr) ++
            ("\nErrors:" ++ Join t.Errors "," ++ "\n") ++
            ("\nDuration:" ++ t.Duration.String ++ "\n")) ∧
      (t.Pass = true →
        t.String =
          "\nTest Name:" ++ t.Name ++ "\nTest Status:Pass" ++
            (if t.Stdout = "" then "" else "\nStdout:" ++ t.Stdout) ++
            (if t.Stderr = "" then "" else "\nStderr:" ++ t.Stderr) ++
            ("\nErrors:" ++ Join t.Errors "," ++ "\n") ++
            ("\nDuration:" ++ t.Duration.String ++ "\n")) := by
  constructor <;> intro hp <;> rw [String_eq] <;> simp only [TestResult.IsPass, hp] <;> rfl

theorem status_label_follows_pass_flag_witness :
    TestResult.String ⟨"t", false, "", "", some ["boom"], ⟨0⟩⟩ =
        "\nTest Name:" ++ "t" ++ "\nTest Status:Fail" ++ "" ++ "" ++
          ("\nErrors:" ++ Join (some ["boom"]) "," ++ "\n") ++
          ("\nDuration:" ++ Duration.String ⟨0⟩ ++ "\n") ∧
      TestResult.String ⟨"t", true, "", "", some ["boom"], ⟨0⟩⟩ =
        "\nTest Name:" ++ "t" ++ "\nTest Status:Pass" ++ "" ++ "" ++
          ("\nErrors:" ++ Join (some ["boom"]) "," ++ "\n") ++
          ("\nDuration:" ++ Duration.String ⟨0⟩ ++ "\n") :=
  ⟨(status_label_follows_pass_flag ⟨"t", false, "", "", some ["boom"], ⟨0⟩⟩ (by decide)).1 rfl,
    (status_label_follows_pass_flag ⟨"t", true, "", "", some ["boom"], ⟨0⟩⟩ (by decide)).2 rfl⟩

/-- C12: for every string other than the three names, the error of `Set` has
the message "unsupported format ", then the string itself unchanged, then
": please select from `text`, `json`, or `junit`", which names the three
valid choices. -/
theorem set_error_message (o : OutputValue) (s : String)
    (h1 : s ≠ "text") (h2 : s ≠ "json") (h3 : s ≠ "junit") :
    (o.Set s).2 =
      some ("unsupported format " ++ s ++ ": please select from `text`, `json`, or `junit`") := by
  have hm := Sprintf_one_string "unsupported format ".data
    ": please select from `text`, `json`, or `junit`".data s (by decide) (by decide)
  simp only [OutputValue.Set, h1, h2, h3, if_false]
  exact congrArg some hm

theorem set_error_message_witness :
    (Text.Set "xml").2 =
      some ("unsupported format " ++ "xml" ++ ": please select from `text`, `json`, or `junit`") :=
  set_error_message Text "xml" (by decide) (by decide) (by decide)

/-- C16: `Error` and `Errorf` leave every field but `Errors` as it was, `Fail`
leaves every field but `Pass` as it was, and a result with `Pass` true still
has `IsPass` true after any sequence of `Error` and `Errorf` calls without a
`Fail`. -/
theorem recording_errors_does_not_fail :
    (∀ (t : TestResult) (s : String),
        t.Error s = ⟨t.Name, t.Pass, t.Stdout, t.Stderr, (t.Error s).Errors, t.Duration⟩) ∧
      (∀ (t : TestResult) (s : String) (args : List Arg),
        t.Errorf s args =
          ⟨t.Name, t.Pass, t.Stdout, t.Stderr, (t.Errorf s args).Errors, t.Duration⟩) ∧
      (∀ t : TestResult,
        t.Fail = ⟨t.Name, false, t.Stdout, t.Stderr, t.Errors, t.Duration⟩) ∧
      (∀ (t : TestResult) (ms : List Mutator), t.Pass = true → Mutator.Fail ∉ ms →
        (t.calls ms).IsPass = true) := by
  refine ⟨fun _ _ => rfl, fun _ _ _ => rfl, fun _ => rfl, ?_⟩
  intro t ms hp hms
  simp [TestResult.IsPass, calls_without_Fail_keep_Pass ms t hms, hp]

theorem recording_errors_does_not_fail_witness :
    (TestResult.calls ⟨"t", true, "", "", none, ⟨0⟩⟩
      [.Error "e", .Errorf "code=%d" [.int 7], .Error "e"]).IsPass = true :=
  recording_errors_does_not_fail.2.2.2 _ _ rfl (by decide)

/-- C17: from the zero value `Text`, after any sequence of `Set` calls with
any arguments the value is `Text`, `Json` or `Junit`, and `String` on it
returns "text", "json" or "junit" without a fault. -/
theorem reachable_values_render (values : List String) :
    (⟨0⟩ : OutputValue) = Text ∧
      (setAll Text values = Text ∨ setAll Text values = Json ∨
        setAll Text values = Junit) ∧
      (OutputValue.String (setAll Text values) = .ok "text" ∨ OutputValue.String (setAll Text values) = .ok "json" ∨
        OutputValue.String (setAll Text values) = .ok "junit") := by
  have h := setAll_one_of_three values Text (Or.inl rfl)
  refine ⟨rfl, h, ?_⟩
  rcases h with h | h | h <;> rw [h]
  · exact Or.inl (by decide)
  · exact Or.inr (Or.inl (by decide))
  · exact Or.inr (Or.inr (by decide))

/-- C18: for each of the three variants and every prior value, `String` of
the variant returns a name on which `Set` returns no error and leaves the
variant itself; so `String` takes different variants to different names. -/
theorem string_then_set_is_identity :
    (∀ v o : OutputValue, v = Text ∨ v = Json ∨ v = Junit →
        ∃ s : String, v.String = .ok s ∧ (o.Set s).2 = none ∧ (o.Set s).1 = v) ∧
      (∀ v w : OutputValue, (v = Text ∨ v = Json ∨ v = Junit) →
        (w = Text ∨ w = Json ∨ w = Junit) → v.String = w.String → v = w) := by
  constructor
  · intro v o hv
    rcases hv with h | h | h <;> subst h
    · exact ⟨"text", by decide, rfl, rfl⟩
    · exact ⟨"json", by decide, rfl, rfl⟩
    · exact ⟨"junit", by decide, rfl, rfl⟩
  · intro v w hv hw
    rcases hv with h | h | h <;> rcases hw with h' | h' | h' <;> subst h <;> subst h' <;>
      decide

theorem string_then_set_is_identity_witness :
    (∃ s : String, Junit.String = .ok s ∧ (Text.Set s).2 = none ∧ (Text.Set s).1 = Junit) ∧
      (Json.String = Json.String → Json = Json) :=
  ⟨string_then_set_is_identity.1 Junit Text (Or.inr (Or.inr rfl)),
    string_then_set_is_identity.2 Json Json (Or.inr (Or.inl rfl)) (Or.inr (Or.inl rfl))⟩

/-- C19: two results that differ only in `Errors`, one holding "a" and "b"
and the other the single entry "a,b", have the same rendering, whatever the
other fields are. -/
theorem rendering_does_not_determine_errors (t : TestResult) :
    TestResult.String { t with Errors := some ["a", "b"] } =
        TestResult.String { t with Errors := some ["a,b"] } ∧
      StrSlice.elems (some ["a", "b"]) ≠ StrSlice.elems (some ["a,b"]) ∧
      TestResult.String ⟨"t", true, "", "", some ["a", "b"], ⟨0⟩⟩ =
        TestResult.String ⟨"t", true, "", "", some ["a,b"], ⟨0⟩⟩ := by
  refine ⟨?_, by decide, by decide⟩
  rw [String_eq, String_eq]
  have hj : Join (some ["a", "b"]) "," = Join (some ["a,b"]) "," := by decide
  simp only [TestResult.IsPass, hj]

/-! ## Serialization -/

theorem marshalEach_ok {α : Type} (f : α → Except String (List XmlToken))
    (g : α → List XmlToken) (h : ∀ x, f x = .ok (g x)) (xs : List α) :
    marshalEach f xs = .ok (xs.flatMap g) := by
  induction xs with
  | nil => rfl
  | cons x xs ih => simp [marshalEach, h, ih]

theorem testcase_marshal (t : TestResult) :
    marshalStructValue simpleKind "TestResult" t.fields "testcase" =
      .ok (testcaseElement t) := by
  have h1 : structFieldInfo "Name" "name,attr" = .ok ⟨"name", [], true, false⟩ := by decide
  have h2 : structFieldInfo "Errors" "failure" = .ok ⟨"failure", [], false, false⟩ := by
    decide
  have h3 : structFieldInfo "Duration" "time,attr" = .ok ⟨"time", [], true, false⟩ := by
    decide
  simp [marshalStructValue, TestResult.fields, getTypeInfo, h1, h2, h3, marshalAttrs,
    marshalStruct, simpleKind, marshalSimple, trim, push, commonLen, testcaseElement,
    textElement]

theorem results_marshal (rs : Option (List TestResult)) :
    fieldKind.element ⟨"testcase", ["testsuite"], false, false⟩ (.results rs) =
      .ok ((resultElems rs).flatMap testcaseElement) := by
  show marshalEach (fun t => marshalStructValue simpleKind "TestResult" t.fields "testcase")
      (match rs with
        | none => []
        | some ts => ts) = _
  rw [marshalEach_ok _ testcaseElement testcase_marshal]
  cases rs <;> rfl

theorem int_attr (name : String) (n : Int) :
    fieldKind.attr name (.simple (.int n)) = .ok [(name, toString n)] := rfl

theorem xmlMarshal_eq (s : SummaryObject) :
    xmlMarshal s =
      .ok ([.startElement "testsuites"
              [("failures", toString s.Fail), ("tests", toString s.Total),
                ("time", toString s.Duration.ns)],
            .startElement "testsuite" []] ++
          (resultElems s.Results).flatMap testcaseElement ++
          [.endElement "testsuite", .endElement "testsuites"]) := by
  have h0 : structFieldInfo "XMLName" "testsuites" = .ok ⟨"testsuites", [], false, false⟩ := by
    decide
  have h1 : structFieldInfo "Fail" "failures,attr" = .ok ⟨"failures", [], true, false⟩ := by
    decide
  have h2 : structFieldInfo "Total" "tests,attr" = .ok ⟨"tests", [], true, false⟩ := by
    decide
  have h3 : structFieldInfo "Duration" "time,attr" = .ok ⟨"time", [], true, false⟩ := by
    decide
  have h4 : structFieldInfo "Results" "testsuite>testcase" =
      .ok ⟨"testcase", ["testsuite"], false, false⟩ := by decide
  simp [xmlMarshal, marshalStructValue, SummaryObject.fields, getTypeInfo, h0, h1, h2, h3, h4,
    marshalAttrs, marshalStruct, int_attr, trim, push, commonLen, results_marshal]

theorem testcase_names (t : TestResult) :
    ∀ n ∈ (testcaseElement t).flatMap XmlToken.names,
      n ∈ ["testcase", "name", "time", "failure"] := by
  have hf : ∀ (es : List String),
      ∀ n ∈ (es.flatMap (fun e =>
          [XmlToken.startElement "failure" [], .charData e, .endElement "failure"])).flatMap
            XmlToken.names, n = "failure" := by
    intro es
    induction es with
    | nil => simp
    | cons e es ih =>
      intro n hn
      simp only [List.flatMap_cons, List.flatMap_append, List.mem_append] at hn
      rcases hn with hn | hn
      · simp [XmlToken.names] at hn
        exact hn
      · exact ih n hn
  intro n hn
  simp only [testcaseElement, List.flatMap_append, List.mem_append] at hn
  rcases hn with (hn | hn) | hn
  · simp [XmlToken.names] at hn
    rcases hn with h | h | h <;> simp [h]
  · simp [hf _ n hn]
  · simp [XmlToken.names] at hn
    simp [hn]

theorem results_names (ts : List TestResult) :
    ∀ n ∈ (ts.flatMap testcaseElement).flatMap XmlToken.names,
      n ∈ ["testcase", "name", "time", "failure"] := by
  induction ts with
  | nil => simp
  | cons t ts ih =>
    intro n hn
    simp only [List.flatMap_cons, List.flatMap_append, List.mem_append] at hn
    rcases hn with hn | hn
    · exact testcase_names t n hn
    · exact ih n hn

theorem jsonMarshal_eq (s : SummaryObject) :
    jsonMarshal s =
      [("Pass", .leaf (.number s.Pass)), ("Fail", .leaf (.number s.Fail)),
        ("Total", .leaf (.number s.Total)), ("Duration", .leaf (.number s.Duration.ns))] ++
        (if resultElems s.Results = [] then []
          else [("Results", .objects ((resultElems s.Results).map jsonMarshalResult))]) := by
  have h0 : jsonFieldInfo "XMLName" "-" = none := by decide
  have h1 : jsonFieldInfo "Pass" "" = some ("Pass", false) := by decide
  have h2 : jsonFieldInfo "Fail" "" = some ("Fail", false) := by decide
  have h3 : jsonFieldInfo "Total" "" = some ("Total", false) := by decide
  have h4 : jsonFieldInfo "Duration" "" = some ("Duration", false) := by decide
  have h5 : jsonFieldInfo "Results" ",omitempty" = some ("Results", true) := by decide
  rcases s with ⟨n, p, f, t, d, rs⟩
  cases rs with
  | none =>
    simp [jsonMarshal, SummaryObject.fields, jsonMembers, h0, h1, h2, h3, h4, h5,
      FieldValue.isEmpty, encodeField, encodeSimple, resultElems]
  | some ts =>
    cases ts with
    | nil =>
      simp [jsonMarshal, SummaryObject.fields, jsonMembers, h0, h1, h2, h3, h4, h5,
        FieldValue.isEmpty, encodeField, encodeSimple, resultElems]
    | cons r ts =>
      simp [jsonMarshal, SummaryObject.fields, jsonMembers, h0, h1, h2, h3, h4, h5,
        FieldValue.isEmpty, encodeField, encodeSimple, resultElems]

/-- C13, as stated, fails: on a summary with one failing result the root
start tag carries the attributes `failures`, `tests` and `time`, and no name
in the output is "fail". -/
theorem root_attribute_is_not_named_fail :
    xmlMarshal ⟨⟨"", ""⟩, 0, 1, 1, ⟨5⟩, some [⟨"t", false, "", "", some ["boom"], ⟨5⟩⟩]⟩ =
        .ok [.startElement "testsuites" [("failures", "1"), ("tests", "1"), ("time", "5")],
          .startElement "testsuite" [],
          .startElement "testcase" [("name", "t"), ("time", "5")],
          .startElement "failure" [], .charData "boom", .endElement "failure",
          .endElement "testcase", .endElement "testsuite", .endElement "testsuites"] ∧
      xmlNames ⟨⟨"", ""⟩, 0, 1, 1, ⟨5⟩, some [⟨"t", false, "", "", some ["boom"], ⟨5⟩⟩]⟩ =
        ["testsuites", "failures", "tests", "time", "testsuite", "testcase", "name", "time",
          "failure", "failure", "testcase", "testsuite", "testsuites"] ∧
      "fail" ∉ xmlNames ⟨⟨"", ""⟩, 0, 1, 1, ⟨5⟩, some [⟨"t", false, "", "", some ["boom"], ⟨5⟩⟩]⟩ := by
  decide

/-- C13, amended: the XML rendering of every summary has the root element
`testsuites` with the attributes `failures` (carrying `Fail`), `tests`
(carrying `Total`) and `time` (carrying `Duration`); inside it there is one
`testsuite` element that holds one `testcase` element per result, in order;
each `testcase` has the attributes `name` and `time` and one `failure` child
per entry of `Errors`, in list order. -/
theorem xml_rendering_shape (s : SummaryObject) :
    xmlMarshal s =
      .ok ([.startElement "testsuites"
              [("failures", toString s.Fail), ("tests", toString s.Total),
                ("time", toString s.Duration.ns)],
            .startElement "testsuite" []] ++
          (resultElems s.Results).flatMap
            (fun t =>
              [.startElement "testcase" [("name", t.Name), ("time", toString t.Duration.ns)]] ++
                t.Errors.elems.flatMap
                  (fun e => [.startElement "failure" [], .charData e, .endElement "failure"]) ++
                [.endElement "testcase"]) ++
          [.endElement "testsuite", .endElement "testsuites"]) :=
  xmlMarshal_eq s

/-- C14: in the XML rendering of every summary no element and no attribute is
named "Pass", and the rendering is the same whatever the `Pass` count of the
summary and the `Pass` flags of the results are; the JSON rendering has the
member "Pass" that carries the `Pass` count. -/
theorem xml_has_no_pass_and_json_has (s : SummaryObject) :
    (∃ toks, xmlMarshal s = .ok toks ∧ "Pass" ∉ toks.flatMap XmlToken.names) ∧
      (∀ (p : Int) (b : Bool),
        xmlMarshal { s with
          Pass := p
          Results := s.Results.map (List.map (fun t => { t with Pass := b })) } =
          xmlMarshal s) ∧
      (jsonMarshal s).lookup "Pass" = some (.leaf (.number s.Pass)) := by
  refine ⟨⟨_, xmlMarshal_eq s, ?_⟩, ?_, ?_⟩
  · intro hmem
    simp only [List.flatMap_append, List.mem_append] at hmem
    rcases hmem with (hmem | hmem) | hmem
    · revert hmem
      simp [XmlToken.names]
    · have := results_names _ _ hmem
      revert this
      decide
    · revert hmem
      simp [XmlToken.names]
  · intro p b
    rw [xmlMarshal_eq, xmlMarshal_eq]
    have hr : (resultElems (s.Results.map (List.map (fun t => { t with Pass := b })))).flatMap
        testcaseElement = (resultElems s.Results).flatMap testcaseElement := by
      cases s.Results with
      | none => rfl
      | some ts =>
        simp only [Option.map, resultElems]
        induction ts with
        | nil => rfl
        | cons t ts ih =>
          simp only [List.map_cons, List.flatMap_cons, ih]
          rfl
    simp only [hr]
  · rw [jsonMarshal_eq]
    simp [List.lookup]

/-- C15: the JSON rendering of a summary whose `Results` is nil or has length
0 has no member "Results"; when `Results` has entries the rendering has the
member "Results" holding one object per result, in the order of `Results`. -/
theorem json_results_omitted_when_empty (s : SummaryObject) :
    (resultElems s.Results = [] →
        jsonMarshal s =
          [("Pass", .leaf (.number s.Pass)), ("Fail", .leaf (.number s.Fail)),
            ("Total", .leaf (.number s.Total)),
            ("Duration", .leaf (.number s.Duration.ns))] ∧
        (jsonMarshal s).lookup "Results" = none) ∧
      (resultElems s.Results ≠ [] →
        jsonMarshal s =
          [("Pass", .leaf (.number s.Pass)), ("Fail", .leaf (.number s.Fail)),
            ("Total", .leaf (.number s.Total)),
            ("Duration", .leaf (.number s.Duration.ns)),
            ("Results", .objects ((resultElems s.Results).map jsonMarshalResult))] ∧
        (jsonMarshal s).lookup "Results" =
          some (.objects ((resultElems s.Results).map jsonMarshalResult))) := by
  constructor
  · intro h
    rw [jsonMarshal_eq]
    simp [h, List.lookup]
  · intro h
    rw [jsonMarshal_eq]
    simp [h, List.lookup]

theorem json_results_omitted_when_empty_witness :
    (List.lookup "Results" (jsonMarshal ⟨⟨"", ""⟩, 0, 0, 0, ⟨0⟩, none⟩) = none ∧
        List.lookup "Results" (jsonMarshal ⟨⟨"", ""⟩, 0, 0, 0, ⟨0⟩, some []⟩) = none) ∧
      List.lookup "Results"
          (jsonMarshal ⟨⟨"", ""⟩, 1, 1, 2, ⟨3⟩,
            some [⟨"a", true, "", "", none, ⟨1⟩⟩, ⟨"b", false, "", "", some ["e"], ⟨2⟩⟩]⟩) =
        some (.objects
          [[("Name", .string "a"), ("Pass", .bool true), ("Duration", .number 1)],
            [("Name", .string "b"), ("Pass", .bool false), ("Errors", .strings ["e"]),
              ("Duration", .number 2)]]) :=
  ⟨⟨((json_results_omitted_when_empty ⟨⟨"", ""⟩, 0, 0, 0, ⟨0⟩, none⟩).1 rfl).2,
      ((json_results_omitted_when_empty ⟨⟨"", ""⟩, 0, 0, 0, ⟨0⟩, some []⟩).1 rfl).2⟩,
    ((json_results_omitted_when_empty ⟨⟨"", ""⟩, 1, 1, 2, ⟨3⟩,
      some [⟨"a", true, "", "", none, ⟨1⟩⟩, ⟨"b", false, "", "", some ["e"], ⟨2⟩⟩]⟩).2
        (by decide)).2⟩

end Unversioned
